import Mathlib

/-!
Verification of the wasm boundary of the staking program
(`src/staking/programs/staking/src/wasm.rs`).

The file shallowly embeds the exposed operations of `wasm.rs`:
record decoding (`from_buffer_impl`), encoding (`as_borsh_impl`), the
position-table lookups (`get_position_state_impl`,
`is_position_voting_impl`), the locked-balance aggregation
(`get_locked_balance_summary_impl`), withdrawable-amount pass-through
(`get_widthdrawable`), the clock decoder (`get_unix_time_impl`) and the
boundary error conversion (`convert_error`).

Machine integers are embedded as `Nat` (unsigned) and `Int` (signed) with
explicit `2 ^ 64` bounds where overflow matters.  Fallible operations
return `Except Err`.

Parts of the repository that wasm.rs depends on are not available here
(`crate::state::positions`, `crate::error`, `crate::utils::risk`, the
solana `Clock` sysvar, and anchor's account (de)serialization); those are
modelled from the spec, as documented on each definition:
  * the position classifier `get_current_position` and the voting
    predicate `is_voting` are opaque external functions (spec section 2 and
    section 4.3), so the embedding takes them as function parameters;
  * the withdrawal validator `validate` is an external contract (spec
    section 4.5), also a function parameter;
  * the record wire layout is the spec's
    `[type_tag][MAX_POSITIONS x fixed-width slot encoding]` (spec
    section 6), with `MAX_POSITIONS` taken as a parameter since its value
    is defined outside the examined scope;
  * the internal error taxonomy is the spec's (spec section 7).
-/

/-- Modelled from the spec (section 7): the internal error taxonomy.  The
concrete anchor error codes (`crate::error::ErrorCode`,
`anchor_lang::error::ErrorCode`) are not part of the examined source;
the spec names these kinds.  A Rust panic from out-of-bounds slice
indexing is modelled as `IndexOutOfRange`.  Errors forwarded verbatim
from the external classifier/validator collaborators are `External`. -/
inductive Err where
  | FormatError : Err
  | BufferTooSmall : Err
  | IndexOutOfRange : Err
  | PositionNotInUse : Err
  | NoFreeSlot : Err
  | BalanceOverflow : Err
  | External : String → Err
deriving DecidableEq, Repr

/-- The human-readable message carried across the wasm boundary
(`e.to_string()` in `convert_error`). -/
def Err.message : Err → String
  | .FormatError => "Error Code: FormatError"
  | .BufferTooSmall => "Error Code: BufferTooSmall"
  | .IndexOutOfRange => "index out of bounds"
  | .PositionNotInUse => "Error Code: PositionNotInUse"
  | .NoFreeSlot => "Error Code: NoFreeSlot"
  | .BalanceOverflow => "Error Code: GenericOverflow"
  | .External s => s

/-- `convert_error` from wasm.rs: converts the internal result into a
boundary result whose error is only the human-readable message. -/
def convert_error {α : Type} (return_val : Except Err α) : Except String α :=
  match return_val with
  | .ok x => .ok x
  | .error e => .error e.message

/-- The modulus of unsigned 64-bit arithmetic. -/
def U64_MOD : Nat := 2 ^ 64

/-- Rust's `u64::checked_add`: `some (a + b)` unless the sum leaves the
64-bit range, in which case `none`. -/
def checked_add (a b : Nat) : Option Nat :=
  if a + b < U64_MOD then some (a + b) else none

/-- Modelled from the spec (section 3, "Position Lifecycle Phase"):
`crate::state::positions::PositionState` is not under the examined
source.  The spec requires at least `LOCKING`, `LOCKED`, `UNLOCKING`
plus one additional phase not included in balance summation. -/
inductive PositionState where
  | LOCKING : PositionState
  | LOCKED : PositionState
  | UNLOCKING : PositionState
  | UNLOCKED : PositionState
deriving DecidableEq, Repr

/-- Modelled from the spec (section 3, "Position"):
`crate::state::positions::Position` is not under the examined source.
The spec gives `amount` (unsigned 64-bit) plus the fields the external
classifier needs: an activation epoch and an optional unlock-request
epoch. -/
structure Position where
  amount : Nat
  activation_epoch : Nat
  unlocking_start : Option Nat
deriving DecidableEq, Repr

/-- The type of the external position classifier
`Position::get_current_position(current_epoch, unlocking_duration)`,
an opaque external collaborator (spec sections 2 and 4.3): the embedding
is parametric in it. -/
def Classifier : Type := Position → Nat → Nat → Except Err PositionState

/-- The decoded account: a fixed-size ordered sequence of optional
position slots (`PositionData` in the source; length `MAX_POSITIONS`
for every decoded record). -/
structure PositionData where
  positions : List (Option Position)
deriving DecidableEq, Repr

/-- The three-field value object returned by the Balance Aggregator. -/
structure LockedBalanceSummary where
  locking : Nat
  locked : Nat
  unlocking : Nat
deriving DecidableEq, Repr

/-- `get_position_state_impl` from wasm.rs: looks the slot up
(`self.wrapped.positions[index]`, whose out-of-bounds panic is modelled
as `IndexOutOfRange`), fails with `PositionNotInUse` on an empty slot,
and otherwise delegates to the external classifier. -/
def get_position_state_impl (classify : Classifier) (d : PositionData)
    (index current_epoch unlocking_duration : Nat) : Except Err PositionState :=
  match d.positions.get? index with
  | none => .error .IndexOutOfRange
  | some none => .error .PositionNotInUse
  | some (some pos) => classify pos current_epoch unlocking_duration

/-- `is_position_voting_impl` from wasm.rs: same slot lookup, then the
external voting predicate `pos.is_voting()` (a total Bool-valued
function, spec section 4.3), taken as the parameter `voting`.  The
`current_epoch` and `unlocking_duration` arguments are accepted but not
used, exactly as in the source. -/
def is_position_voting_impl (voting : Position → Bool) (d : PositionData)
    (index current_epoch unlocking_duration : Nat) : Except Err Bool :=
  match d.positions.get? index with
  | none => .error .IndexOutOfRange
  | some none => .error .PositionNotInUse
  | some (some pos) => .ok (voting pos)

/-- `is_position_voting` from wasm.rs: the boundary wrapper, which only
applies `convert_error`. -/
def is_position_voting (voting : Position → Bool) (d : PositionData)
    (index current_epoch unlocking_duration : Nat) : Except String Bool :=
  convert_error (is_position_voting_impl voting d index current_epoch unlocking_duration)

/-- `get_position_state` from wasm.rs: the boundary wrapper. -/
def get_position_state (classify : Classifier) (d : PositionData)
    (index current_epoch unlocking_duration : Nat) : Except String PositionState :=
  convert_error (get_position_state_impl classify d index current_epoch unlocking_duration)

/-- The loop body of `get_locked_balance_summary_impl`: walks the slots in
ascending index order carrying the three running sums; occupied slots are
classified and, on `LOCKING`/`LOCKED`/`UNLOCKING`, the amount is added
with `checked_add` (failing with the overflow error when the sum leaves
the 64-bit range); other phases fall into the `_ => {}` arm. -/
def sumSlots (classify : Classifier) (current_epoch unlocking_duration : Nat) :
    List (Option Position) → Nat → Nat → Nat → Except Err LockedBalanceSummary
  | [], locking, locked, unlocking => .ok ⟨locking, locked, unlocking⟩
  | none :: rest, locking, locked, unlocking =>
      sumSlots classify current_epoch unlocking_duration rest locking locked unlocking
  | some position :: rest, locking, locked, unlocking =>
      match classify position current_epoch unlocking_duration with
      | .error e => .error e
      | .ok .LOCKING =>
          match checked_add locking position.amount with
          | some v => sumSlots classify current_epoch unlocking_duration rest v locked unlocking
          | none => .error .BalanceOverflow
      | .ok .LOCKED =>
          match checked_add locked position.amount with
          | some v => sumSlots classify current_epoch unlocking_duration rest locking v unlocking
          | none => .error .BalanceOverflow
      | .ok .UNLOCKING =>
          match checked_add unlocking position.amount with
          | some v => sumSlots classify current_epoch unlocking_duration rest locking locked v
          | none => .error .BalanceOverflow
      | .ok _ =>
          sumSlots classify current_epoch unlocking_duration rest locking locked unlocking

/-- `get_locked_balance_summary_impl` from wasm.rs: the loop
`for i in 0..MAX_POSITIONS` over `self.wrapped.positions[i]` starting
from all-zero sums; since every decoded record has exactly
`MAX_POSITIONS` slots, the loop is the left-to-right walk of the slot
list. -/
def get_locked_balance_summary_impl (classify : Classifier) (d : PositionData)
    (current_epoch unlocking_duration : Nat) : Except Err LockedBalanceSummary :=
  sumSlots classify current_epoch unlocking_duration d.positions 0 0 0

/-- Little-endian encoding of a natural number into `k` bytes (the byte
width of each fixed-width unsigned field of the wire format). -/
def encBytes : Nat → Nat → List Nat
  | 0, _ => []
  | k + 1, n => n % 256 :: encBytes k (n / 256)

/-- Little-endian decoding of a byte list into a natural number. -/
def decBytes (l : List Nat) : Nat :=
  l.foldr (fun b acc => b + 256 * acc) 0

/-- Modelled from the spec (section 6): the externally defined
discriminator (`PositionData::discriminator()`, not under the examined
source) — fixed leading tag bytes identifying the record's schema. -/
def DISCRIMINATOR : List Nat := [152, 131, 219, 14, 22, 79, 138, 66]

/-- Modelled from the spec (sections 3 and 6): the fixed-width encoding
of one optional unlock-request epoch inside a slot: a presence byte
followed by 8 value bytes (zero padding in the empty case). -/
def encodeOptU64 : Option Nat → List Nat
  | none => 0 :: List.replicate 8 0
  | some v => 1 :: encBytes 8 v

/-- Modelled from the spec (sections 3 and 6): the fixed-width slot
encoding — a presence byte, then for an occupied slot the position's
fields in canonical order (`amount`, `activation_epoch`,
`unlocking_start`), and for an empty slot zero padding of the same
width. -/
def encodeSlot : Option Position → List Nat
  | none => 0 :: List.replicate 25 0
  | some p => 1 :: (encBytes 8 p.amount ++ encBytes 8 p.activation_epoch ++ encodeOptU64 p.unlocking_start)

/-- The byte width of one encoded slot. -/
def SLOT_SIZE : Nat := 26

/-- The encoding of the whole position table, slot by slot in ascending
index order. -/
def encodeSlots : List (Option Position) → List Nat
  | [] => []
  | s :: rest => encodeSlot s ++ encodeSlots rest

/-- Decoder for one optional unlock-request epoch (inverse of
`encodeOptU64`); fails with `FormatError` on a truncated or
non-canonical encoding. -/
def decodeOptU64 : List Nat → Except Err (Option Nat × List Nat)
  | [] => .error .FormatError
  | tag :: rest =>
      if tag = 0 then
        if rest.take 8 = List.replicate 8 0 then .ok (none, rest.drop 8)
        else .error .FormatError
      else if tag = 1 then
        if 8 ≤ rest.length then .ok (some (decBytes (rest.take 8)), rest.drop 8)
        else .error .FormatError
      else .error .FormatError

/-- Decoder for one slot (inverse of `encodeSlot`); fails with
`FormatError` on a truncated or non-canonical encoding. -/
def decodeSlot : List Nat → Except Err (Option Position × List Nat)
  | [] => .error .FormatError
  | tag :: rest =>
      if tag = 0 then
        if rest.take 25 = List.replicate 25 0 then .ok (none, rest.drop 25)
        else .error .FormatError
      else if tag = 1 then
        if 16 ≤ rest.length then
          match decodeOptU64 (rest.drop 16) with
          | .ok (ou, l4) =>
              .ok (some ⟨decBytes (rest.take 8), decBytes ((rest.drop 8).take 8), ou⟩, l4)
          | .error e => .error e
        else .error .FormatError
      else .error .FormatError

/-- Decoder for `n` consecutive slots, returning the slots and the
remaining bytes. -/
def decodeSlots : Nat → List Nat → Except Err (List (Option Position) × List Nat)
  | 0, l => .ok ([], l)
  | n + 1, l =>
      match decodeSlot l with
      | .error e => .error e
      | .ok (s, l') =>
          match decodeSlots n l' with
          | .error e => .error e
          | .ok (ss, l'') => .ok (s :: ss, l'')

/-- The fixed byte size of the record payload (`size_of::<PositionData>()`
in the source): `MAX_POSITIONS` fixed-width slots. -/
def sizeOfPositionData (MAX_POSITIONS : Nat) : Nat :=
  MAX_POSITIONS * SLOT_SIZE

/-- `Constants::POSITIONS_ACCOUNT_SIZE` from wasm.rs: the statically
known encoded length, discriminator length plus payload size. -/
def POSITIONS_ACCOUNT_SIZE (MAX_POSITIONS : Nat) : Nat :=
  DISCRIMINATOR.length + sizeOfPositionData MAX_POSITIONS

/-- `get_borsh_length` from wasm.rs (`get_packed_len::<PositionData>()`):
the packed byte length of the serialized payload. -/
def get_borsh_length (MAX_POSITIONS : Nat) : Nat :=
  sizeOfPositionData MAX_POSITIONS

/-- `from_buffer_impl` from wasm.rs (`PositionData::try_deserialize`):
fails with a format error if the buffer is shorter than the
discriminator, or if the leading tag bytes differ from the
discriminator; otherwise deserializes `MAX_POSITIONS` slots from the
remaining bytes (trailing bytes are ignored). -/
def from_buffer_impl (MAX_POSITIONS : Nat) (buffer : List Nat) : Except Err PositionData :=
  if buffer.length < DISCRIMINATOR.length then .error .FormatError
  else if buffer.take DISCRIMINATOR.length ≠ DISCRIMINATOR then .error .FormatError
  else
    match decodeSlots MAX_POSITIONS (buffer.drop DISCRIMINATOR.length) with
    | .error e => .error e
    | .ok (slots, _) => .ok ⟨slots⟩

/-- `as_borsh_impl` from wasm.rs: writes the discriminator followed by
the serialized record into the caller-supplied output buffer, failing
with `BufferTooSmall` when the buffer cannot hold the encoded record;
on success the result is the buffer's new contents. -/
def as_borsh_impl (d : PositionData) (output_buffer : List Nat) : Except Err (List Nat) :=
  let bytes := DISCRIMINATOR ++ encodeSlots d.positions
  if output_buffer.length < bytes.length then .error .BufferTooSmall
  else .ok (bytes ++ output_buffer.drop bytes.length)

/-- Modelled from the spec (sections 4.7 and 6): the fixed-layout
SYSVAR_CLOCK record (the external `solana_program` clock sysvar, not
under the examined source), whose signed 64-bit Unix-timestamp field is
the one this core extracts. -/
structure Clock where
  slot : Nat
  epoch_start_timestamp : Int
  epoch : Nat
  leader_schedule_epoch : Nat
  unix_timestamp : Int
deriving DecidableEq, Repr

/-- Little-endian two's-complement encoding of a signed 64-bit field. -/
def encI64 (t : Int) : List Nat :=
  encBytes 8 (t % (2 ^ 64 : Int)).toNat

/-- Little-endian two's-complement decoding of a signed 64-bit field. -/
def decI64 (l : List Nat) : Int :=
  let n := decBytes l
  if n < 2 ^ 63 then (n : Int) else (n : Int) - 2 ^ 64

/-- The fixed byte length of the serialized clock record. -/
def CLOCK_SIZE : Nat := 40

/-- The fixed-layout serialization of the clock record, fields in
canonical order. -/
def encodeClock (c : Clock) : List Nat :=
  encBytes 8 c.slot ++ encI64 c.epoch_start_timestamp ++ encBytes 8 c.epoch
    ++ encBytes 8 c.leader_schedule_epoch ++ encI64 c.unix_timestamp

/-- The generic binary deserialization of the clock record
(`bincode::deserialize`): reads the five fixed-width fields in order,
ignoring trailing bytes, and fails on a truncated buffer. -/
def deserializeClock (l : List Nat) : Except Err Clock :=
  if CLOCK_SIZE ≤ l.length then
    .ok ⟨decBytes (l.take 8),
         decI64 ((l.drop 8).take 8),
         decBytes ((l.drop 16).take 8),
         decBytes ((l.drop 24).take 8),
         decI64 ((l.drop 32).take 8)⟩
  else .error .FormatError

/-- A clock record whose fields all lie in their machine ranges. -/
def validClock (c : Clock) : Prop :=
  c.slot < 2 ^ 64 ∧
  -(2 ^ 63) ≤ c.epoch_start_timestamp ∧ c.epoch_start_timestamp < 2 ^ 63 ∧
  c.epoch < 2 ^ 64 ∧ c.leader_schedule_epoch < 2 ^ 64 ∧
  -(2 ^ 63) ≤ c.unix_timestamp ∧ c.unix_timestamp < 2 ^ 63

instance (c : Clock) : Decidable (validClock c) := by
  unfold validClock; infer_instance

/-- `get_unix_time_impl` from wasm.rs: deserializes the clock record
(mapping any deserialization failure to the format error) and returns
its Unix-timestamp field. -/
def get_unix_time_impl (on_chain_serialized : List Nat) : Except Err Int :=
  match deserializeClock on_chain_serialized with
  | .ok clock => .ok clock.unix_timestamp
  | .error _ => .error .FormatError

/-- The type of the external withdrawal validator
`crate::utils::risk::validate` (spec section 4.5): an opaque external
contract, so the embedding is parametric in it. -/
def WithdrawValidator : Type := PositionData → Nat → Nat → Nat → Nat → Except Err Nat

/-- `get_widthdrawable` from wasm.rs: calls the external validator on the
wrapped record and the four scalar arguments and applies only
`convert_error` to the outcome. -/
def get_widthdrawable (validate : WithdrawValidator) (d : PositionData)
    (total_balance unvested_balance current_epoch unlocking_duration : Nat) :
    Except String Nat :=
  convert_error (validate d total_balance unvested_balance current_epoch unlocking_duration)

/-! ## Claim theorems -/

/-- C2: for every decoded record (one whose slot list has length
`MAX_POSITIONS`) and every slot index at or beyond `MAX_POSITIONS`, both
slot-lookup operations fail with the `IndexOutOfRange` error (the Rust
out-of-bounds indexing panic), for any `current_epoch` and
`unlocking_duration` arguments. -/
theorem C2_slot_lookup_index_out_of_range (classify : Classifier)
    (voting : Position → Bool) (MAX_POSITIONS : Nat) (d : PositionData)
    (index current_epoch unlocking_duration : Nat)
    (hlen : d.positions.length = MAX_POSITIONS) (hidx : MAX_POSITIONS ≤ index) :
    get_position_state_impl classify d index current_epoch unlocking_duration
        = .error .IndexOutOfRange ∧
    is_position_voting_impl voting d index current_epoch unlocking_duration
        = .error .IndexOutOfRange := by
  have h : d.positions[index]? = none := List.getElem?_eq_none (by omega)
  constructor <;>
    simp [get_position_state_impl, is_position_voting_impl, List.get?_eq_getElem?, h]

theorem C2_slot_lookup_index_out_of_range_witness :
    get_position_state_impl (fun _ _ _ => .ok .LOCKED) ⟨[none, none]⟩ 5 0 0
        = .error .IndexOutOfRange ∧
    is_position_voting_impl (fun _ => true) ⟨[none, none]⟩ 5 0 0
        = .error .IndexOutOfRange :=
  C2_slot_lookup_index_out_of_range _ _ 2 _ 5 0 0 rfl (by decide)

/-- C6: for every decoded record and every in-range index whose slot is
empty, both slot-lookup operations fail with `PositionNotInUse`, for all
values of the `current_epoch` and `unlocking_duration` arguments. -/
theorem C6_empty_slot_position_not_in_use (classify : Classifier)
    (voting : Position → Bool) (MAX_POSITIONS : Nat) (d : PositionData)
    (index current_epoch unlocking_duration : Nat)
    (hlen : d.positions.length = MAX_POSITIONS) (hidx : index < MAX_POSITIONS)
    (hempty : d.positions.get? index = some none) :
    get_position_state_impl classify d index current_epoch unlocking_duration
        = .error .PositionNotInUse ∧
    is_position_voting_impl voting d index current_epoch unlocking_duration
        = .error .PositionNotInUse := by
  have h : d.positions[index]? = some none := by
    rw [← List.get?_eq_getElem?]
    exact hempty
  constructor <;>
    simp [get_position_state_impl, is_position_voting_impl, List.get?_eq_getElem?, h]

theorem C6_empty_slot_position_not_in_use_witness :
    get_position_state_impl (fun _ _ _ => .ok .LOCKED) ⟨[none, some ⟨7, 0, none⟩]⟩ 0 3 4
        = .error .PositionNotInUse ∧
    is_position_voting_impl (fun _ => true) ⟨[none, some ⟨7, 0, none⟩]⟩ 0 3 4
        = .error .PositionNotInUse :=
  C6_empty_slot_position_not_in_use _ _ 2 _ 0 3 4 rfl (by decide) rfl

/-- C9: `getWithdrawable` returns exactly the external validator's value
when it succeeds, and fails exactly when the validator fails, only
erasing the error into its boundary message — no caching, retrying, or
reinterpretation. -/
theorem C9_withdrawable_is_validator_passthrough (validate : WithdrawValidator)
    (d : PositionData) (total_balance unvested_balance current_epoch unlocking_duration : Nat) :
    (∀ v, validate d total_balance unvested_balance current_epoch unlocking_duration = .ok v →
        get_widthdrawable validate d total_balance unvested_balance current_epoch unlocking_duration
          = .ok v) ∧
    (∀ e, validate d total_balance unvested_balance current_epoch unlocking_duration = .error e →
        get_widthdrawable validate d total_balance unvested_balance current_epoch unlocking_duration
          = .error e.message) := by
  constructor <;> intro x h <;> simp [get_widthdrawable, convert_error, h]

theorem C9_withdrawable_is_validator_passthrough_witness :
    get_widthdrawable (fun _ _ _ _ _ => .ok 42) ⟨[]⟩ 1 2 3 4 = .ok 42 ∧
    get_widthdrawable (fun _ _ _ _ _ => .error (.External "boom")) ⟨[]⟩ 1 2 3 4
        = .error "boom" :=
  ⟨(C9_withdrawable_is_validator_passthrough _ _ 1 2 3 4).1 42 rfl,
   (C9_withdrawable_is_validator_passthrough _ _ 1 2 3 4).2 (.External "boom") rfl⟩

/-- C10: for every record and index, `isPositionVoting` gives the
identical outcome — same success value or same error — for any two
values of its `current_epoch` and `unlocking_duration` arguments: the
voting flag does not depend on those inputs even though the operation
accepts them. -/
theorem C10_voting_independent_of_epoch_args (voting : Position → Bool)
    (d : PositionData) (index e₁ u₁ e₂ u₂ : Nat) :
    is_position_voting voting d index e₁ u₁ = is_position_voting voting d index e₂ u₂ :=
  rfl

/-- The aggregation walk only depends on the subsequence of occupied
slots: empty slots are skipped. -/
theorem sumSlots_eq_occupied (classify : Classifier) (ce ud : Nat) :
    ∀ (l : List (Option Position)) (a b u : Nat),
      sumSlots classify ce ud l a b u
        = sumSlots classify ce ud ((l.filterMap id).map some) a b u := by
  intro l
  induction l with
  | nil => intro a b u; rfl
  | cons s rest ih =>
    intro a b u
    cases s with
    | none => simpa [sumSlots] using ih a b u
    | some p =>
      have hfm : ((some p :: rest).filterMap id).map some
          = some p :: ((rest.filterMap id).map some) := by simp
      rw [hfm]
      simp only [sumSlots]
      cases hc : classify p ce ud with
      | error e => rfl
      | ok st =>
        cases st with
        | LOCKING => cases hca : checked_add a p.amount <;> simp [hca, ih]
        | LOCKED => cases hca : checked_add b p.amount <;> simp [hca, ih]
        | UNLOCKING => cases hca : checked_add u p.amount <;> simp [hca, ih]
        | UNLOCKED => exact ih a b u

/-- C1: for every decoded record whose occupied slots are exactly two
positions `p` and `q`, both classified `LOCKED` at the given arguments:
if `p.amount + q.amount` stays within unsigned 64-bit range the summary
has `locked = p.amount + q.amount` (and zero in the other fields); if it
overflows, the call fails with the overflow error and returns no
summary. -/
theorem C1_two_locked_sum_or_overflow (classify : Classifier) (ce ud : Nat)
    (d : PositionData) (p q : Position)
    (hocc : d.positions.filterMap id = [p, q])
    (hp : classify p ce ud = .ok .LOCKED) (hq : classify q ce ud = .ok .LOCKED)
    (hpa : p.amount < U64_MOD) (hqa : q.amount < U64_MOD) :
    (p.amount + q.amount < U64_MOD →
      get_locked_balance_summary_impl classify d ce ud
        = .ok ⟨0, p.amount + q.amount, 0⟩) ∧
    (U64_MOD ≤ p.amount + q.amount →
      get_locked_balance_summary_impl classify d ce ud
        = .error .BalanceOverflow) := by
  unfold get_locked_balance_summary_impl
  rw [sumSlots_eq_occupied, hocc]
  have h1 : checked_add 0 p.amount = some p.amount := by
    unfold checked_add
    rw [if_pos (by omega), Nat.zero_add]
  constructor
  · intro h
    have h2 : checked_add p.amount q.amount = some (p.amount + q.amount) := by
      unfold checked_add
      rw [if_pos h]
    simp [sumSlots, hp, hq, h1, h2]
  · intro h
    have h2 : checked_add p.amount q.amount = none := by
      unfold checked_add
      rw [if_neg (by omega)]
    simp [sumSlots, hp, hq, h1, h2]

theorem C1_two_locked_sum_or_overflow_witness :
    get_locked_balance_summary_impl (fun _ _ _ => .ok .LOCKED)
        ⟨[some ⟨5, 0, none⟩, none, some ⟨7, 1, none⟩]⟩ 2 3 = .ok ⟨0, 12, 0⟩ :=
  (C1_two_locked_sum_or_overflow (fun _ _ _ => .ok .LOCKED) 2 3
      ⟨[some ⟨5, 0, none⟩, none, some ⟨7, 1, none⟩]⟩ ⟨5, 0, none⟩ ⟨7, 1, none⟩
      rfl rfl rfl (by decide) (by decide)).1 (by decide)

/-- Replacing an occupied slot whose classification is a phase other than
the three summed ones by an empty slot leaves the aggregation walk
unchanged, whatever the running sums. -/
theorem sumSlots_set_none_of_other_phase (classify : Classifier) (ce ud : Nat) :
    ∀ (l : List (Option Position)) (i : Nat) (p : Position) (s : PositionState)
      (a b u : Nat),
      l.get? i = some (some p) → classify p ce ud = .ok s →
      s ≠ .LOCKING → s ≠ .LOCKED → s ≠ .UNLOCKING →
      sumSlots classify ce ud (l.set i none) a b u = sumSlots classify ce ud l a b u := by
  intro l
  induction l with
  | nil =>
    intro i p s a b u hget
    simp [List.get?] at hget
  | cons x rest ih =>
    intro i p s a b u hget hcl h1 h2 h3
    cases i with
    | zero =>
      rw [List.get?_cons_zero] at hget
      injection hget with hx
      subst hx
      cases s with
      | LOCKING => exact absurd rfl h1
      | LOCKED => exact absurd rfl h2
      | UNLOCKING => exact absurd rfl h3
      | UNLOCKED => simp [List.set, sumSlots, hcl]
    | succ j =>
      rw [List.get?_cons_succ] at hget
      have ihj : ∀ a b u : Nat,
          sumSlots classify ce ud (rest.set j none) a b u
            = sumSlots classify ce ud rest a b u :=
        fun a b u => ih j p s a b u hget hcl h1 h2 h3
      cases x with
      | none => simpa [List.set, sumSlots] using ihj a b u
      | some q =>
        simp only [List.set, sumSlots]
        cases hc : classify q ce ud with
        | error e => rfl
        | ok st =>
          cases st with
          | LOCKING => cases hca : checked_add a q.amount <;> simp [hca, ihj]
          | LOCKED => cases hca : checked_add b q.amount <;> simp [hca, ihj]
          | UNLOCKING => cases hca : checked_add u q.amount <;> simp [hca, ihj]
          | UNLOCKED => exact ihj a b u

/-- C7: for every record and arguments, an occupied slot classified with
any phase other than `LOCKING`, `LOCKED` or `UNLOCKING` contributes
nothing to any field of the locked-balance summary and never causes the
call to fail: the call's outcome — value or error — is identical to the
outcome on the record with that slot emptied. -/
theorem C7_other_phases_skipped (classify : Classifier) (ce ud : Nat)
    (d : PositionData) (i : Nat) (p : Position) (s : PositionState)
    (hget : d.positions.get? i = some (some p))
    (hcl : classify p ce ud = .ok s)
    (h1 : s ≠ .LOCKING) (h2 : s ≠ .LOCKED) (h3 : s ≠ .UNLOCKING) :
    get_locked_balance_summary_impl classify ⟨d.positions.set i none⟩ ce ud
      = get_locked_balance_summary_impl classify d ce ud := by
  unfold get_locked_balance_summary_impl
  exact sumSlots_set_none_of_other_phase classify ce ud d.positions i p s 0 0 0
    hget hcl h1 h2 h3

theorem C7_other_phases_skipped_witness :
    get_locked_balance_summary_impl (fun _ _ _ => .ok .UNLOCKED) ⟨[none, none]⟩ 1 2
      = get_locked_balance_summary_impl (fun _ _ _ => .ok .UNLOCKED)
          ⟨[none, some ⟨9, 2, some 4⟩]⟩ 1 2 :=
  C7_other_phases_skipped (fun _ _ _ => .ok .UNLOCKED) 1 2
      ⟨[none, some ⟨9, 2, some 4⟩]⟩ 1 ⟨9, 2, some 4⟩ .UNLOCKED rfl rfl
      (by decide) (by decide) (by decide)

/-! ## Codec lemmas -/

theorem encBytes_length : ∀ (k n : Nat), (encBytes k n).length = k := by
  intro k
  induction k with
  | zero => intro n; rfl
  | succ j ih => intro n; simp [encBytes, ih]

theorem encodeOptU64_length (o : Option Nat) : (encodeOptU64 o).length = 9 := by
  cases o <;> simp [encodeOptU64, encBytes_length]

theorem encodeSlot_length (s : Option Position) : (encodeSlot s).length = SLOT_SIZE := by
  cases s <;> simp [encodeSlot, SLOT_SIZE, encBytes_length, encodeOptU64_length]

theorem encodeSlots_length :
    ∀ l : List (Option Position), (encodeSlots l).length = l.length * SLOT_SIZE := by
  intro l
  induction l with
  | nil => rfl
  | cons s rest ih =>
    simp only [encodeSlots, List.length_append, List.length_cons, encodeSlot_length, ih,
      SLOT_SIZE]
    omega

theorem decodeOptU64_ok_length {l : List Nat} {o : Option Nat} {rest : List Nat}
    (h : decodeOptU64 l = .ok (o, rest)) : l.length = 9 + rest.length := by
  cases l with
  | nil => simp [decodeOptU64] at h
  | cons tag tl =>
    simp only [decodeOptU64] at h
    by_cases h0 : tag = 0
    · rw [if_pos h0] at h
      by_cases hpad : tl.take 8 = List.replicate 8 0
      · rw [if_pos hpad] at h
        simp only [Except.ok.injEq, Prod.mk.injEq] at h
        obtain ⟨_, hrest⟩ := h
        subst hrest
        have h8 : 8 ≤ tl.length := by
          have := congrArg List.length hpad
          simp [List.length_take] at this
          omega
        simp [List.length_drop]
        omega
      · rw [if_neg hpad] at h; simp at h
    · rw [if_neg h0] at h
      by_cases h1 : tag = 1
      · rw [if_pos h1] at h
        by_cases hlen : 8 ≤ tl.length
        · rw [if_pos hlen] at h
          simp only [Except.ok.injEq, Prod.mk.injEq] at h
          obtain ⟨_, hrest⟩ := h
          subst hrest
          simp [List.length_drop]
          omega
        · rw [if_neg hlen] at h; simp at h
      · rw [if_neg h1] at h; simp at h

theorem decodeOptU64_error_format {l : List Nat} {e : Err}
    (h : decodeOptU64 l = .error e) : e = .FormatError := by
  cases l with
  | nil => simp [decodeOptU64] at h; exact h.symm
  | cons tag tl =>
    simp only [decodeOptU64] at h
    by_cases h0 : tag = 0
    · rw [if_pos h0] at h
      by_cases hpad : tl.take 8 = List.replicate 8 0
      · rw [if_pos hpad] at h; simp at h
      · rw [if_neg hpad] at h; simp at h; exact h.symm
    · rw [if_neg h0] at h
      by_cases h1 : tag = 1
      · rw [if_pos h1] at h
        by_cases hlen : 8 ≤ tl.length
        · rw [if_pos hlen] at h; simp at h
        · rw [if_neg hlen] at h; simp at h; exact h.symm
      · rw [if_neg h1] at h; simp at h; exact h.symm

theorem decodeSlot_ok_length {l : List Nat} {s : Option Position} {rest : List Nat}
    (h : decodeSlot l = .ok (s, rest)) : l.length = SLOT_SIZE + rest.length := by
  cases l with
  | nil => simp [decodeSlot] at h
  | cons tag tl =>
    simp only [decodeSlot] at h
    by_cases h0 : tag = 0
    · rw [if_pos h0] at h
      by_cases hpad : tl.take 25 = List.replicate 25 0
      · rw [if_pos hpad] at h
        simp only [Except.ok.injEq, Prod.mk.injEq] at h
        obtain ⟨_, hrest⟩ := h
        subst hrest
        have h25 : 25 ≤ tl.length := by
          have := congrArg List.length hpad
          simp [List.length_take] at this
          omega
        simp [List.length_drop, SLOT_SIZE]
        omega
      · rw [if_neg hpad] at h; simp at h
    · rw [if_neg h0] at h
      by_cases h1 : tag = 1
      · rw [if_pos h1] at h
        by_cases hlen : 16 ≤ tl.length
        · rw [if_pos hlen] at h
          cases ho : decodeOptU64 (tl.drop 16) with
          | error e => rw [ho] at h; simp at h
          | ok pr =>
            obtain ⟨ou, l4⟩ := pr
            rw [ho] at h
            simp only [Except.ok.injEq, Prod.mk.injEq] at h
            obtain ⟨_, hrest⟩ := h
            subst hrest
            have := decodeOptU64_ok_length ho
            simp [List.length_drop] at this
            simp [SLOT_SIZE]
            omega
        · rw [if_neg hlen] at h; simp at h
      · rw [if_neg h1] at h; simp at h

theorem decodeSlot_error_format {l : List Nat} {e : Err}
    (h : decodeSlot l = .error e) : e = .FormatError := by
  cases l with
  | nil => simp [decodeSlot] at h; exact h.symm
  | cons tag tl =>
    simp only [decodeSlot] at h
    by_cases h0 : tag = 0
    · rw [if_pos h0] at h
      by_cases hpad : tl.take 25 = List.replicate 25 0
      · rw [if_pos hpad] at h; simp at h
      · rw [if_neg hpad] at h; simp at h; exact h.symm
    · rw [if_neg h0] at h
      by_cases h1 : tag = 1
      · rw [if_pos h1] at h
        by_cases hlen : 16 ≤ tl.length
        · rw [if_pos hlen] at h
          cases ho : decodeOptU64 (tl.drop 16) with
          | error e2 =>
            rw [ho] at h
            simp at h
            rw [← h]
            exact decodeOptU64_error_format ho
          | ok pr =>
            obtain ⟨ou, l4⟩ := pr
            rw [ho] at h
            simp at h
        · rw [if_neg hlen] at h; simp at h; exact h.symm
      · rw [if_neg h1] at h; simp at h; exact h.symm

theorem decodeSlots_ok_length :
    ∀ (n : Nat) {l : List Nat} {ss : List (Option Position)} {rest : List Nat},
      decodeSlots n l = .ok (ss, rest) →
      l.length = n * SLOT_SIZE + rest.length ∧ ss.length = n := by
  intro n
  induction n with
  | zero =>
    intro l ss rest h
    simp only [decodeSlots, Except.ok.injEq, Prod.mk.injEq] at h
    obtain ⟨hss, hrest⟩ := h
    subst hss; subst hrest
    simp
  | succ m ih =>
    intro l ss rest h
    simp only [decodeSlots] at h
    cases h1 : decodeSlot l with
    | error e => rw [h1] at h; simp at h
    | ok pr =>
      obtain ⟨s, l'⟩ := pr
      rw [h1] at h
      dsimp only at h
      cases h2 : decodeSlots m l' with
      | error e => rw [h2] at h; simp at h
      | ok pr2 =>
        obtain ⟨ss2, l''⟩ := pr2
        rw [h2] at h
        simp only [Except.ok.injEq, Prod.mk.injEq] at h
        obtain ⟨hss, hrest⟩ := h
        subst hss; subst hrest
        have ha := decodeSlot_ok_length h1
        obtain ⟨hb, hc⟩ := ih h2
        constructor
        · rw [ha, hb]; ring
        · simp [hc]

theorem decodeSlots_error_format :
    ∀ (n : Nat) {l : List Nat} {e : Err},
      decodeSlots n l = .error e → e = .FormatError := by
  intro n
  induction n with
  | zero => intro l e h; simp [decodeSlots] at h
  | succ m ih =>
    intro l e h
    simp only [decodeSlots] at h
    cases h1 : decodeSlot l with
    | error e2 =>
      rw [h1] at h
      simp at h
      rw [← h]
      exact decodeSlot_error_format h1
    | ok pr =>
      obtain ⟨s, l'⟩ := pr
      rw [h1] at h
      dsimp only at h
      cases h2 : decodeSlots m l' with
      | error e2 =>
        rw [h2] at h
        simp at h
        rw [← h]
        exact ih h2
      | ok pr2 =>
        obtain ⟨ss2, l''⟩ := pr2
        rw [h2] at h
        simp at h

theorem decodeSlots_short {n : Nat} {l : List Nat}
    (h : l.length < n * SLOT_SIZE) : decodeSlots n l = .error .FormatError := by
  cases hres : decodeSlots n l with
  | ok pr =>
    obtain ⟨ss, rest⟩ := pr
    have := (decodeSlots_ok_length n hres).1
    omega
  | error e => rw [decodeSlots_error_format n hres]

/-- C4: the queryable constant `POSITIONS_ACCOUNT_SIZE` equals the
type-tag length plus the size of the fixed payload, and `asBorsh` fails
with the buffer-too-small error whenever the caller-supplied output
buffer is shorter than that encoded length. -/
theorem C4_encoded_length_and_buffer_too_small (MAX_POSITIONS : Nat)
    (d : PositionData) (output_buffer : List Nat)
    (hd : d.positions.length = MAX_POSITIONS)
    (hout : output_buffer.length < POSITIONS_ACCOUNT_SIZE MAX_POSITIONS) :
    POSITIONS_ACCOUNT_SIZE MAX_POSITIONS
        = DISCRIMINATOR.length + sizeOfPositionData MAX_POSITIONS ∧
    as_borsh_impl d output_buffer = .error .BufferTooSmall := by
  refine ⟨rfl, ?_⟩
  have hb : (DISCRIMINATOR ++ encodeSlots d.positions).length
      = POSITIONS_ACCOUNT_SIZE MAX_POSITIONS := by
    simp [List.length_append, encodeSlots_length, hd, POSITIONS_ACCOUNT_SIZE,
      sizeOfPositionData]
  simp only [as_borsh_impl]
  rw [hb, if_pos hout]

theorem C4_encoded_length_and_buffer_too_small_witness :
    POSITIONS_ACCOUNT_SIZE 1 = DISCRIMINATOR.length + sizeOfPositionData 1 ∧
    as_borsh_impl ⟨[none]⟩ (List.replicate 33 0) = .error .BufferTooSmall :=
  C4_encoded_length_and_buffer_too_small 1 ⟨[none]⟩ (List.replicate 33 0) rfl (by decide)

/-- C5: the decode operation fails with the format error on (a) the
empty buffer, (b) every buffer one byte shorter than the encoded
length, and (c) every buffer of the correct encoded length whose leading
tag bytes differ from the expected discriminator. -/
theorem C5_decode_format_errors (MAX_POSITIONS : Nat) :
    from_buffer_impl MAX_POSITIONS [] = .error .FormatError ∧
    (∀ buffer : List Nat, buffer.length = POSITIONS_ACCOUNT_SIZE MAX_POSITIONS - 1 →
      from_buffer_impl MAX_POSITIONS buffer = .error .FormatError) ∧
    (∀ buffer : List Nat, buffer.length = POSITIONS_ACCOUNT_SIZE MAX_POSITIONS →
      buffer.take DISCRIMINATOR.length ≠ DISCRIMINATOR →
      from_buffer_impl MAX_POSITIONS buffer = .error .FormatError) := by
  have hdisc : DISCRIMINATOR.length = 8 := rfl
  refine ⟨rfl, ?_, ?_⟩
  · intro buffer hlen
    simp only [from_buffer_impl]
    by_cases hshort : buffer.length < DISCRIMINATOR.length
    · rw [if_pos hshort]
    · rw [if_neg hshort]
      have hmp : 1 ≤ MAX_POSITIONS := by
        by_contra hc
        have : MAX_POSITIONS = 0 := by omega
        subst this
        simp [POSITIONS_ACCOUNT_SIZE, sizeOfPositionData, hdisc] at hlen
        omega
      by_cases htag : buffer.take DISCRIMINATOR.length ≠ DISCRIMINATOR
      · rw [if_pos htag]
      · rw [if_neg htag]
        have hdrop : (buffer.drop DISCRIMINATOR.length).length
            < MAX_POSITIONS * SLOT_SIZE := by
          simp only [List.length_drop, hdisc]
          simp only [POSITIONS_ACCOUNT_SIZE, sizeOfPositionData, hdisc, SLOT_SIZE] at hlen ⊢
          omega
        rw [decodeSlots_short hdrop]
  · intro buffer hlen htag
    simp only [from_buffer_impl]
    have hge : ¬ buffer.length < DISCRIMINATOR.length := by
      simp only [POSITIONS_ACCOUNT_SIZE, sizeOfPositionData, hdisc] at hlen
      omega
    rw [if_neg hge, if_pos htag]

theorem C5_decode_format_errors_witness :
    from_buffer_impl 1 [] = .error .FormatError ∧
    from_buffer_impl 1 (List.replicate 33 7) = .error .FormatError ∧
    from_buffer_impl 1 (List.replicate 34 7) = .error .FormatError :=
  ⟨(C5_decode_format_errors 1).1,
   (C5_decode_format_errors 1).2.1 (List.replicate 33 7) (by decide),
   (C5_decode_format_errors 1).2.2 (List.replicate 34 7) (by decide) (by decide)⟩

theorem encBytes_decBytes :
    ∀ l : List Nat, (∀ b ∈ l, b < 256) → encBytes l.length (decBytes l) = l := by
  intro l
  induction l with
  | nil => intro _; rfl
  | cons b tl ih =>
    intro h
    have hb : b < 256 := h b (List.mem_cons_self b tl)
    have ht : ∀ x ∈ tl, x < 256 := fun x hx => h x (List.mem_cons_of_mem b hx)
    have hd : decBytes (b :: tl) = b + 256 * decBytes tl := rfl
    have hmod : (b + 256 * decBytes tl) % 256 = b := by omega
    have hdiv : (b + 256 * decBytes tl) / 256 = decBytes tl := by omega
    simp only [List.length_cons, encBytes, hd, hmod, hdiv, ih ht]

theorem decodeOptU64_roundtrip {l : List Nat} {o : Option Nat} {rest : List Nat}
    (h : decodeOptU64 l = .ok (o, rest)) (hb : ∀ b ∈ l, b < 256) :
    encodeOptU64 o ++ rest = l := by
  cases l with
  | nil => simp [decodeOptU64] at h
  | cons tag tl =>
    have htl : ∀ b ∈ tl, b < 256 := fun b hx => hb b (List.mem_cons_of_mem tag hx)
    simp only [decodeOptU64] at h
    by_cases h0 : tag = 0
    · rw [if_pos h0] at h
      by_cases hpad : tl.take 8 = List.replicate 8 0
      · rw [if_pos hpad] at h
        simp only [Except.ok.injEq, Prod.mk.injEq] at h
        obtain ⟨ho, hrest⟩ := h
        subst ho; subst hrest; subst h0
        simp only [encodeOptU64, List.cons_append]
        rw [← hpad, List.take_append_drop]
      · rw [if_neg hpad] at h; simp at h
    · rw [if_neg h0] at h
      by_cases h1 : tag = 1
      · rw [if_pos h1] at h
        by_cases hlen : 8 ≤ tl.length
        · rw [if_pos hlen] at h
          simp only [Except.ok.injEq, Prod.mk.injEq] at h
          obtain ⟨ho, hrest⟩ := h
          subst ho; subst hrest; subst h1
          simp only [encodeOptU64, List.cons_append]
          have htake : (tl.take 8).length = 8 := by
            simp [List.length_take]
            omega
          have henc : encBytes 8 (decBytes (tl.take 8)) = tl.take 8 := by
            have := encBytes_decBytes (tl.take 8)
              (fun b hx => htl b (List.take_subset 8 tl hx))
            rw [htake] at this
            exact this
          rw [henc, List.take_append_drop]
        · rw [if_neg hlen] at h; simp at h
      · rw [if_neg h1] at h; simp at h

theorem decodeSlot_roundtrip {l : List Nat} {s : Option Position} {rest : List Nat}
    (h : decodeSlot l = .ok (s, rest)) (hb : ∀ b ∈ l, b < 256) :
    encodeSlot s ++ rest = l := by
  cases l with
  | nil => simp [decodeSlot] at h
  | cons tag tl =>
    have htl : ∀ b ∈ tl, b < 256 := fun b hx => hb b (List.mem_cons_of_mem tag hx)
    simp only [decodeSlot] at h
    by_cases h0 : tag = 0
    · rw [if_pos h0] at h
      by_cases hpad : tl.take 25 = List.replicate 25 0
      · rw [if_pos hpad] at h
        simp only [Except.ok.injEq, Prod.mk.injEq] at h
        obtain ⟨hs, hrest⟩ := h
        subst hs; subst hrest; subst h0
        simp only [encodeSlot, List.cons_append]
        rw [← hpad, List.take_append_drop]
      · rw [if_neg hpad] at h; simp at h
    · rw [if_neg h0] at h
      by_cases h1 : tag = 1
      · rw [if_pos h1] at h
        by_cases hlen : 16 ≤ tl.length
        · rw [if_pos hlen] at h
          cases ho : decodeOptU64 (tl.drop 16) with
          | error e => rw [ho] at h; simp at h
          | ok pr =>
            obtain ⟨ou, l4⟩ := pr
            rw [ho] at h
            simp only [Except.ok.injEq, Prod.mk.injEq] at h
            obtain ⟨hs, hrest⟩ := h
            subst hs; subst hrest; subst h1
            simp only [encodeSlot, List.cons_append]
            have hchunk1 : encBytes 8 (decBytes (tl.take 8)) = tl.take 8 := by
              have htake : (tl.take 8).length = 8 := by
                simp [List.length_take]
                omega
              have := encBytes_decBytes (tl.take 8)
                (fun b hx => htl b (List.take_subset 8 tl hx))
              rw [htake] at this
              exact this
            have hchunk2 : encBytes 8 (decBytes ((tl.drop 8).take 8)) = (tl.drop 8).take 8 := by
              have htake : ((tl.drop 8).take 8).length = 8 := by
                simp [List.length_take, List.length_drop]
                omega
              have := encBytes_decBytes ((tl.drop 8).take 8)
                (fun b hx => htl b (List.drop_subset 8 tl (List.take_subset 8 _ hx)))
              rw [htake] at this
              exact this
            have hopt : encodeOptU64 ou ++ l4 = tl.drop 16 :=
              decodeOptU64_roundtrip ho
                (fun b hx => htl b (List.drop_subset 16 tl hx))
            rw [hchunk1, hchunk2]
            have hdd : (tl.drop 8).drop 8 = tl.drop 16 := by
              rw [List.drop_drop]
            calc (1 : Nat) :: (tl.take 8 ++ (tl.drop 8).take 8 ++ encodeOptU64 ou ++ l4)
                = 1 :: (tl.take 8 ++ ((tl.drop 8).take 8 ++ (encodeOptU64 ou ++ l4))) := by
                  simp [List.append_assoc]
              _ = 1 :: (tl.take 8 ++ ((tl.drop 8).take 8 ++ (tl.drop 8).drop 8)) := by
                  rw [hopt, hdd]
              _ = 1 :: (tl.take 8 ++ tl.drop 8) := by rw [List.take_append_drop]
              _ = 1 :: tl := by rw [List.take_append_drop]
        · rw [if_neg hlen] at h; simp at h
      · rw [if_neg h1] at h; simp at h

theorem decodeSlots_roundtrip :
    ∀ (n : Nat) {l : List Nat} {ss : List (Option Position)} {rest : List Nat},
      decodeSlots n l = .ok (ss, rest) → (∀ b ∈ l, b < 256) →
      encodeSlots ss ++ rest = l := by
  intro n
  induction n with
  | zero =>
    intro l ss rest h hb
    simp only [decodeSlots, Except.ok.injEq, Prod.mk.injEq] at h
    obtain ⟨hss, hrest⟩ := h
    subst hss; subst hrest
    rfl
  | succ m ih =>
    intro l ss rest h hb
    simp only [decodeSlots] at h
    cases h1 : decodeSlot l with
    | error e => rw [h1] at h; simp at h
    | ok pr =>
      obtain ⟨s, l'⟩ := pr
      rw [h1] at h
      dsimp only at h
      cases h2 : decodeSlots m l' with
      | error e => rw [h2] at h; simp at h
      | ok pr2 =>
        obtain ⟨ss2, l''⟩ := pr2
        rw [h2] at h
        simp only [Except.ok.injEq, Prod.mk.injEq] at h
        obtain ⟨hss, hrest⟩ := h
        subst hss; subst hrest
        have hsl := decodeSlot_roundtrip h1 hb
        have hsub : ∀ b ∈ l', b < 256 := by
          intro b hbm
          exact hb b (by rw [← hsl]; exact List.mem_append_right _ hbm)
        have hrec := ih h2 hsub
        simp only [encodeSlots, List.append_assoc]
        rw [hrec, hsl]

/-- C3: every byte buffer of exactly the encoded length that decodes
successfully (it therefore begins with the correct type tag) is
reproduced exactly by re-encoding the decoded record into a fresh
buffer of the encoded length. -/
theorem C3_decode_encode_roundtrip (MAX_POSITIONS : Nat) (buffer : List Nat)
    (d : PositionData)
    (hlen : buffer.length = POSITIONS_ACCOUNT_SIZE MAX_POSITIONS)
    (hbytes : ∀ b ∈ buffer, b < 256)
    (hdec : from_buffer_impl MAX_POSITIONS buffer = .ok d) :
    as_borsh_impl d (List.replicate (POSITIONS_ACCOUNT_SIZE MAX_POSITIONS) 0)
      = .ok buffer := by
  have hdisc : DISCRIMINATOR.length = 8 := rfl
  simp only [from_buffer_impl] at hdec
  by_cases hshort : buffer.length < DISCRIMINATOR.length
  · rw [if_pos hshort] at hdec; simp at hdec
  · rw [if_neg hshort] at hdec
    by_cases htag : buffer.take DISCRIMINATOR.length ≠ DISCRIMINATOR
    · rw [if_pos htag] at hdec; simp at hdec
    · rw [if_neg htag] at hdec
      rw [not_not] at htag
      cases hsl : decodeSlots MAX_POSITIONS (buffer.drop DISCRIMINATOR.length) with
      | error e => rw [hsl] at hdec; simp at hdec
      | ok pr =>
        obtain ⟨slots, rest⟩ := pr
        rw [hsl] at hdec
        simp only [Except.ok.injEq] at hdec
        subst hdec
        obtain ⟨hconsumed, hcount⟩ := decodeSlots_ok_length MAX_POSITIONS hsl
        have hdroplen : (buffer.drop DISCRIMINATOR.length).length
            = MAX_POSITIONS * SLOT_SIZE := by
          simp only [List.length_drop, hdisc]
          simp only [POSITIONS_ACCOUNT_SIZE, sizeOfPositionData, hdisc] at hlen
          omega
        have hrestnil : rest = [] := by
          have : rest.length = 0 := by
            rw [hdroplen] at hconsumed
            omega
          exact List.length_eq_zero.mp this
        subst hrestnil
        have hrt : encodeSlots slots = buffer.drop DISCRIMINATOR.length := by
          have := decodeSlots_roundtrip MAX_POSITIONS hsl
            (fun b hx => hbytes b (List.drop_subset _ buffer hx))
          simpa using this
        have hbuf : DISCRIMINATOR ++ encodeSlots slots = buffer := by
          rw [hrt]
          nth_rewrite 1 [← htag]
          exact List.take_append_drop _ buffer
        have hblen : (DISCRIMINATOR ++ encodeSlots slots).length
            = POSITIONS_ACCOUNT_SIZE MAX_POSITIONS := by
          rw [hbuf, hlen]
        simp only [as_borsh_impl]
        rw [hblen, List.length_replicate, if_neg (lt_irrefl _)]
        rw [List.drop_eq_nil_of_le (by simp), List.append_nil, hbuf]

theorem C3_decode_encode_roundtrip_witness :
    as_borsh_impl ⟨[none, some ⟨3, 5, some 9⟩]⟩ (List.replicate 60 0)
      = .ok (DISCRIMINATOR ++ (encodeSlot none ++ encodeSlot (some ⟨3, 5, some 9⟩))) :=
  C3_decode_encode_roundtrip 2
    (DISCRIMINATOR ++ (encodeSlot none ++ encodeSlot (some ⟨3, 5, some 9⟩)))
    ⟨[none, some ⟨3, 5, some 9⟩]⟩ (by decide) (by decide) rfl

theorem decBytes_encBytes :
    ∀ (k n : Nat), n < 256 ^ k → decBytes (encBytes k n) = n := by
  intro k
  induction k with
  | zero =>
    intro n h
    have h0 : n = 0 := by simpa using h
    subst h0
    rfl
  | succ j ih =>
    intro n h
    have hdiv : n / 256 < 256 ^ j := by
      rw [pow_succ] at h
      omega
    have hstep : decBytes (n % 256 :: encBytes j (n / 256))
        = n % 256 + 256 * decBytes (encBytes j (n / 256)) := rfl
    show decBytes (n % 256 :: encBytes j (n / 256)) = n
    rw [hstep, ih (n / 256) hdiv]
    omega

theorem encI64_length (t : Int) : (encI64 t).length = 8 := by
  simp [encI64, encBytes_length]

theorem decI64_encI64 {t : Int} (h1 : -(2 ^ 63) ≤ t) (h2 : t < 2 ^ 63) :
    decI64 (encI64 t) = t := by
  simp only [decI64, encI64]
  rw [decBytes_encBytes 8 _ (by norm_num; omega)]
  split_ifs <;> omega

/-- C8: decoding a well-formed clock record whose Unix-timestamp field is
`T` yields exactly `T`, and every buffer shorter than the fixed clock
layout fails with the format error. -/
theorem C8_unix_time_roundtrip_and_format_error (c : Clock) (hc : validClock c) :
    get_unix_time_impl (encodeClock c) = .ok c.unix_timestamp ∧
    ∀ l : List Nat, l.length < CLOCK_SIZE →
      get_unix_time_impl l = .error .FormatError := by
  constructor
  · have hsplit : encodeClock c
        = encBytes 8 c.slot ++ (encI64 c.epoch_start_timestamp ++ (encBytes 8 c.epoch
            ++ (encBytes 8 c.leader_schedule_epoch ++ encI64 c.unix_timestamp))) := by
      simp [encodeClock, List.append_assoc]
    have hlen : (encodeClock c).length = 40 := by
      simp [encodeClock, encBytes_length, encI64_length]
    have hd8 : (encodeClock c).drop 8
        = encI64 c.epoch_start_timestamp ++ (encBytes 8 c.epoch
            ++ (encBytes 8 c.leader_schedule_epoch ++ encI64 c.unix_timestamp)) := by
      rw [hsplit]
      exact List.drop_left' (encBytes_length 8 _)
    have hd16 : (encodeClock c).drop 16
        = encBytes 8 c.epoch ++ (encBytes 8 c.leader_schedule_epoch
            ++ encI64 c.unix_timestamp) := by
      have hsum : (encodeClock c).drop 16 = ((encodeClock c).drop 8).drop 8 := by
        rw [List.drop_drop]
      rw [hsum, hd8]
      exact List.drop_left' (encI64_length _)
    have hd24 : (encodeClock c).drop 24
        = encBytes 8 c.leader_schedule_epoch ++ encI64 c.unix_timestamp := by
      have hsum : (encodeClock c).drop 24 = ((encodeClock c).drop 16).drop 8 := by
        rw [List.drop_drop]
      rw [hsum, hd16]
      exact List.drop_left' (encBytes_length 8 _)
    have hd32 : (encodeClock c).drop 32 = encI64 c.unix_timestamp := by
      have hsum : (encodeClock c).drop 32 = ((encodeClock c).drop 24).drop 8 := by
        rw [List.drop_drop]
      rw [hsum, hd24]
      exact List.drop_left' (encBytes_length 8 _)
    have hts : decI64 (((encodeClock c).drop 32).take 8) = c.unix_timestamp := by
      rw [hd32]
      have htk : (encI64 c.unix_timestamp).take 8 = encI64 c.unix_timestamp := by
        apply List.take_of_length_le
        rw [encI64_length]
      rw [htk]
      exact decI64_encI64 hc.2.2.2.2.2.1 hc.2.2.2.2.2.2
    simp only [get_unix_time_impl, deserializeClock]
    rw [if_pos (by rw [hlen]; exact Nat.le_refl 40)]
    dsimp only
    rw [hts]
  · intro l hl
    have hdes : deserializeClock l = .error .FormatError := by
      simp only [deserializeClock]
      rw [if_neg (by omega)]
    simp [get_unix_time_impl, hdes]

theorem C8_unix_time_roundtrip_and_format_error_witness :
    get_unix_time_impl (encodeClock ⟨1, -5, 2, 3, 123⟩) = .ok 123 ∧
    get_unix_time_impl [0, 1, 2] = .error .FormatError :=
  ⟨(C8_unix_time_roundtrip_and_format_error ⟨1, -5, 2, 3, 123⟩ (by decide)).1,
   (C8_unix_time_roundtrip_and_format_error ⟨1, -5, 2, 3, 123⟩ (by decide)).2
     [0, 1, 2] (by decide)⟩
